import Mathlib

set_option maxHeartbeats 1000000

/-!
Shallow embedding of the repository source file src/examples/example.rs
(the example Rust module of niradler/code-feedback): the Person record with
its greeting trait, the FileProcessor with its read/write/stats operations,
and the process_arguments normalizer. File I/O is modelled by an explicit
filesystem state FS threaded through the operations; an I/O failure is the
None result. Machine integers (u32 / usize) are modelled as Nat: the ages
and list lengths in every claim are tiny, far from any overflow boundary.
-/

/-- Rust struct Person: name, age (u32, modelled as Nat), optional email. -/
structure Person where
  name : String
  age : Nat
  email : Option String

/-- Model of Rust String::to_uppercase: uppercase every character.
Rust uppercases by the Unicode tables; we map Char.toUpper over the
characters, which agrees on ASCII, the fragment every claim uses. -/
def rustToUppercase (s : String) : String := ⟨s.data.map Char.toUpper⟩

/-- impl Greeter for Person: format with the name and the age rendered in
decimal, exactly as the Rust format string does. -/
def Person.greet (p : Person) : String :=
  "Hello, I\x27m " ++ p.name ++ " and I\x27m " ++ toString p.age ++ " years old"

/-- Person::new: email starts unset. -/
def Person.new (name : String) (age : Nat) : Person :=
  ⟨name, age, none⟩

/-- Person::with_email: set the email field, keep the rest. -/
def Person.with_email (p : Person) (email : String) : Person :=
  { p with email := some email }

/-- Person::is_adult: self.age >= 18. -/
def Person.is_adult (p : Person) : Bool :=
  decide (p.age ≥ 18)

/-- Rust struct FileProcessor: a base path and the ordered log of
processed filenames. -/
structure FileProcessor where
  base_path : String
  processed_files : List String

/-- The filesystem state the processor runs against: the files present
(path to text content) and which paths File::create would succeed on
(permissions, disk space and friends, collapsed into one predicate). -/
structure FS where
  files : List (String × String)
  writable : String → Bool

/-- Model of Path::new(base).join(f): an absolute f replaces the base,
otherwise the separator is put between them. -/
def pathJoin (base : String) (f : String) : String :=
  if f.data.head? = some '/' then f else base ++ "/" ++ f

/-- Look a path up in the filesystem contents. -/
def lookupA (k : String) : List (String × String) → Option String
  | [] => none
  | (k', v) :: rest => if k' = k then some v else lookupA k rest

/-- Store a content under a path, replacing any previous content. -/
def insertA (k v : String) : List (String × String) → List (String × String)
  | [] => [(k, v)]
  | (k', v') :: rest => if k' = k then (k, v) :: rest else (k', v') :: insertA k v rest

/-- FileProcessor::new: empty processed list. -/
def FileProcessor.new (base_path : String) : FileProcessor :=
  ⟨base_path, []⟩

/-- FileProcessor::read_file: join the base path with the filename, open and
read the file (failure when it is not there, modelling the ? propagation of
File::open / read_to_string), and only after a successful read push the
filename onto processed_files. Returns the result and the updated processor;
the filesystem is untouched by a read. -/
def FileProcessor.read_file (p : FileProcessor) (fs : FS) (filename : String) :
    Option String × FileProcessor :=
  match lookupA (pathJoin p.base_path filename) fs.files with
  | none => (none, p)
  | some content =>
      (some content, { p with processed_files := p.processed_files ++ [filename] })

/-- FileProcessor::write_file: join the base path with the filename,
create/truncate and write (failure when the path is not writable, modelling
the ? propagation of File::create / write_all), and only after a successful
write push the filename onto processed_files. Returns the result, the
updated filesystem and the updated processor. -/
def FileProcessor.write_file (p : FileProcessor) (fs : FS) (filename : String)
    (content : String) : Option Unit × FS × FileProcessor :=
  if fs.writable (pathJoin p.base_path filename) then
    (some (), { fs with files := insertA (pathJoin p.base_path filename) content fs.files },
      { p with processed_files := p.processed_files ++ [filename] })
  else
    (none, fs, p)

/-- The serde_json values that get_stats produces: text, an integer
(a usize length, modelled as Nat), or an array. -/
inductive JValue where
  | str : String → JValue
  | num : Nat → JValue
  | arr : List JValue → JValue

/-- FileProcessor::get_stats: the three insertions into the stats map, kept
here as the association list in insertion order. It is a pure function of
the processor state: it takes &self and returns a fresh map. -/
def FileProcessor.get_stats (p : FileProcessor) : List (String × JValue) :=
  [("base_path", JValue.str p.base_path),
   ("processed_files_count", JValue.num p.processed_files.length),
   ("files", JValue.arr (p.processed_files.map JValue.str))]

/-- Model of arg.trim().is_empty(): trimming leaves the empty string exactly
when every character of arg is whitespace (also when arg is empty). -/
def blankArg (arg : String) : Bool :=
  arg.data.all Char.isWhitespace

/-- process_arguments: skip the program name, drop the blank arguments,
uppercase the rest, in order. -/
def process_arguments (args : List String) : List String :=
  ((args.drop 1).filter (fun arg => !(blankArg arg))).map rustToUppercase

/-- One call on the processor: a read of a filename or a write of a content
to a filename. -/
inductive Op where
  | read : String → Op
  | write : String → String → Op

/-- The filename argument of a call. -/
def Op.filename : Op → String
  | .read f => f
  | .write f _ => f

/-- Run a sequence of calls on the processor and the filesystem, returning
the final processor, the final filesystem, and whether every call
succeeded. -/
def runOps (p : FileProcessor) (fs : FS) : List Op → FileProcessor × FS × Bool
  | [] => (p, fs, true)
  | Op.read f :: rest =>
      let r := p.read_file fs f
      let t := runOps r.2 fs rest
      (t.1, t.2.1, r.1.isSome && t.2.2)
  | Op.write f c :: rest =>
      let r := p.write_file fs f c
      let t := runOps r.2.2 r.2.1 rest
      (t.1, t.2.1, r.1.isSome && t.2.2)

/-- The statistics snapshot main prints: the processor is fresh, no call was
made before get_stats. The printed rendering iterates the HashMap, whose
iteration order is unspecified: any permutation of these entries is a
possible printed order. -/
def mainStats : List (String × JValue) :=
  FileProcessor.get_stats (FileProcessor.new ".")

/-- Lexicographic order on character lists, the byte order a key-sorted
rendering (for these ASCII keys) would sort by. -/
def lexLe : List Char → List Char → Bool
  | [], _ => true
  | _ :: _, [] => false
  | a :: as, b :: bs => if a < b then true else if b < a then false else lexLe as bs

/-- The key order of a sorted rendering: lexicographic on the characters. -/
def keyLe (a b : String) : Bool := lexLe a.data b.data

lemma read_file_base_path (p : FileProcessor) (fs : FS) (f : String) :
    (p.read_file fs f).2.base_path = p.base_path := by
  unfold FileProcessor.read_file
  cases lookupA (pathJoin p.base_path f) fs.files <;> rfl

lemma write_file_base_path (p : FileProcessor) (fs : FS) (f c : String) :
    (p.write_file fs f c).2.2.base_path = p.base_path := by
  unfold FileProcessor.write_file
  by_cases h : fs.writable (pathJoin p.base_path f) <;> simp [h]

lemma runOps_base_path (ops : List Op) : ∀ (p : FileProcessor) (fs : FS),
    (runOps p fs ops).1.base_path = p.base_path := by
  induction ops with
  | nil => intro p fs; rfl
  | cons op rest ih =>
    intro p fs
    cases op with
    | read f => simp [runOps, ih, read_file_base_path]
    | write f c => simp [runOps, ih, write_file_base_path]

lemma runOps_processed (ops : List Op) : ∀ (p : FileProcessor) (fs : FS),
    (runOps p fs ops).2.2 = true →
    (runOps p fs ops).1.processed_files = p.processed_files ++ ops.map Op.filename := by
  induction ops with
  | nil => intro p fs _; simp [runOps]
  | cons op rest ih =>
    intro p fs h
    cases op with
    | read f =>
      cases hl : lookupA (pathJoin p.base_path f) fs.files with
      | none => simp [runOps, FileProcessor.read_file, hl] at h
      | some v =>
        simp only [runOps, FileProcessor.read_file, hl] at h ⊢
        simp only [Option.isSome_some, Bool.true_and] at h
        simp [ih _ _ h, Op.filename]
    | write f c =>
      by_cases hw : fs.writable (pathJoin p.base_path f)
      · simp only [runOps, FileProcessor.write_file, hw, if_true] at h ⊢
        simp only [Option.isSome_some, Bool.true_and] at h
        simp [ih _ _ h, Op.filename]
      · simp [runOps, FileProcessor.write_file, hw] at h

lemma lookupA_insertA_self (k v : String) (l : List (String × String)) :
    lookupA k (insertA k v l) = some v := by
  induction l with
  | nil => simp [insertA, lookupA]
  | cons kv rest ih =>
    obtain ⟨k', v'⟩ := kv
    by_cases h : k' = k <;> simp [insertA, lookupA, h, ih]

lemma lookupA_insertA_ne (t k v : String) (l : List (String × String)) (h : t ≠ k) :
    lookupA t (insertA k v l) = lookupA t l := by
  induction l with
  | nil => simp [insertA, lookupA, Ne.symm h]
  | cons kv rest ih =>
    obtain ⟨k', v'⟩ := kv
    by_cases hk : k' = k
    · subst hk
      simp [insertA, lookupA, Ne.symm h]
    · simp [insertA, lookupA, hk, ih]

lemma runOps_fs_lookup (ops : List Op) : ∀ (p : FileProcessor) (fs : FS) (t : String),
    (∀ f' c', Op.write f' c' ∈ ops → pathJoin p.base_path f' ≠ t) →
    lookupA t (runOps p fs ops).2.1.files = lookupA t fs.files := by
  induction ops with
  | nil => intro p fs t _; rfl
  | cons op rest ih =>
    intro p fs t hops
    cases op with
    | read f =>
      cases hl : lookupA (pathJoin p.base_path f) fs.files with
      | none =>
        simp only [runOps, FileProcessor.read_file, hl]
        exact ih p fs t (fun f' c' hm => hops f' c' (List.mem_cons_of_mem _ hm))
      | some v =>
        simp only [runOps, FileProcessor.read_file, hl]
        have hb : ({ p with processed_files := p.processed_files ++ [f] } :
            FileProcessor).base_path = p.base_path := rfl
        exact ih _ fs t (fun f' c' hm => by
          rw [hb]; exact hops f' c' (List.mem_cons_of_mem _ hm))
    | write f c =>
      by_cases hw : fs.writable (pathJoin p.base_path f)
      · simp only [runOps, FileProcessor.write_file, hw, if_true]
        have hne : pathJoin p.base_path f ≠ t :=
          hops f c (List.mem_cons_self _ _)
        have step := ih ({ p with processed_files := p.processed_files ++ [f] })
          ({ fs with files := insertA (pathJoin p.base_path f) c fs.files }) t
          (fun f' c' hm => hops f' c' (List.mem_cons_of_mem _ hm))
        rw [step]
        exact lookupA_insertA_ne t _ c fs.files (Ne.symm hne)
      · simp only [runOps, FileProcessor.write_file, hw, if_false]
        exact ih p fs t (fun f' c' hm => hops f' c' (List.mem_cons_of_mem _ hm))

/-- C1: a failed read_file or write_file leaves processed_files exactly as it
was; the filename is appended exactly when the call succeeds. The stats count
(the length of processed_files) is therefore also unchanged on failure. -/
theorem claim_C1 : ∀ (p : FileProcessor) (fs : FS) (f c : String),
    ((p.read_file fs f).2.processed_files =
      if (p.read_file fs f).1.isSome then p.processed_files ++ [f]
      else p.processed_files) ∧
    ((p.write_file fs f c).2.2.processed_files =
      if (p.write_file fs f c).1.isSome then p.processed_files ++ [f]
      else p.processed_files) := by
  intro p fs f c
  constructor
  · cases hl : lookupA (pathJoin p.base_path f) fs.files <;>
      simp [FileProcessor.read_file, hl]
  · by_cases hw : fs.writable (pathJoin p.base_path f) <;>
      simp [FileProcessor.write_file, hw]

/-- C2: after any all-successful sequence of calls on a fresh processor,
get_stats is exactly the map with the three keys base_path,
processed_files_count and files, the count is the number of calls, and the
files entry lists the filename arguments in call order, duplicates kept.
get_stats itself is a pure function of the processor state, so it modifies
nothing. -/
theorem claim_C2 (bp : String) (fs : FS) (ops : List Op)
    (h : (runOps (FileProcessor.new bp) fs ops).2.2 = true) :
    (runOps (FileProcessor.new bp) fs ops).1.get_stats =
      [("base_path", JValue.str bp),
       ("processed_files_count", JValue.num ops.length),
       ("files", JValue.arr ((ops.map Op.filename).map JValue.str))] := by
  have hp : (runOps (FileProcessor.new bp) fs ops).1.processed_files =
      List.map Op.filename ops := by
    simpa [FileProcessor.new] using runOps_processed ops (FileProcessor.new bp) fs h
  have hb : (runOps (FileProcessor.new bp) fs ops).1.base_path = bp :=
    runOps_base_path ops (FileProcessor.new bp) fs
  simp [FileProcessor.get_stats, hp, hb, List.map_map]

theorem claim_C2_witness :
    ((runOps (FileProcessor.new "base") ⟨[], fun _ => true⟩
        [Op.write "a.txt" "y", Op.read "a.txt"]).2.2 = true) ∧
    (runOps (FileProcessor.new "base") ⟨[], fun _ => true⟩
        [Op.write "a.txt" "y", Op.read "a.txt"]).1.get_stats =
      [("base_path", JValue.str "base"),
       ("processed_files_count", JValue.num 2),
       ("files", JValue.arr [JValue.str "a.txt", JValue.str "a.txt"])] :=
  ⟨by decide, claim_C2 "base" ⟨[], fun _ => true⟩
    [Op.write "a.txt" "y", Op.read "a.txt"] (by decide)⟩

/-- C3: process_arguments never fails (it is a total function), drops the
program name, keeps exactly the non-blank later arguments uppercased, and
keeps them in their relative order (the output is a sublist of the uppercased
tail); the three example evaluations of the claim hold. -/
theorem claim_C3 :
    (process_arguments ["prog", "hello", "", "  ", "world"] = ["HELLO", "WORLD"]) ∧
    (process_arguments [] = []) ∧
    (process_arguments ["onlyprog"] = []) ∧
    (∀ args : List String,
      (process_arguments args).Sublist ((args.drop 1).map rustToUppercase) ∧
      (∀ a, a ∈ args.drop 1 → blankArg a = false →
        rustToUppercase a ∈ process_arguments args) ∧
      (∀ b, b ∈ process_arguments args →
        ∃ a, a ∈ args.drop 1 ∧ blankArg a = false ∧ b = rustToUppercase a)) := by
  refine ⟨by decide, by decide, by decide, fun args => ⟨?_, ?_, ?_⟩⟩
  · exact (List.filter_sublist _).map _
  · intro a ha hb
    exact List.mem_map_of_mem _ (List.mem_filter.mpr ⟨ha, by simp [hb]⟩)
  · intro b hb
    rcases List.mem_map.mp hb with ⟨a, ha, rfl⟩
    rcases List.mem_filter.mp ha with ⟨ha1, ha2⟩
    exact ⟨a, ha1, by simpa using ha2, rfl⟩

theorem claim_C3_witness :
    (" x " ∈ (["prog", " x "] : List String).drop 1) ∧ blankArg " x " = false ∧
    rustToUppercase " x " ∈ process_arguments ["prog", " x "] :=
  ⟨by decide, by decide,
    (claim_C3.2.2.2 ["prog", " x "]).2.1 " x " (by decide) (by decide)⟩

/-- C4: when a write of content c to filename f succeeds and is followed by
any sequence of calls none of which writes to the same resolved path, a
read of f at the end succeeds and returns exactly c. -/
theorem claim_C4 (p : FileProcessor) (fs : FS) (f c : String) (ops : List Op)
    (hw : (p.write_file fs f c).1 = some ())
    (hops : ∀ f' c', Op.write f' c' ∈ ops →
      pathJoin p.base_path f' ≠ pathJoin p.base_path f) :
    ((runOps (p.write_file fs f c).2.2 (p.write_file fs f c).2.1 ops).1.read_file
      (runOps (p.write_file fs f c).2.2 (p.write_file fs f c).2.1 ops).2.1 f).1 =
      some c := by
  by_cases hwr : fs.writable (pathJoin p.base_path f)
  · simp only [FileProcessor.write_file, hwr, if_true] at hw ⊢
    have hb : (runOps ({ p with processed_files := p.processed_files ++ [f] })
        ({ fs with files := insertA (pathJoin p.base_path f) c fs.files })
        ops).1.base_path = p.base_path :=
      runOps_base_path ops _ _
    have hlook := runOps_fs_lookup ops
      ({ p with processed_files := p.processed_files ++ [f] })
      ({ fs with files := insertA (pathJoin p.base_path f) c fs.files })
      (pathJoin p.base_path f) (fun f' c' hm => hops f' c' hm)
    simp only [FileProcessor.read_file, hb, hlook]
    rw [lookupA_insertA_self]
  · simp [FileProcessor.write_file, hwr] at hw

theorem claim_C4_witness :
    (((FileProcessor.new "base").write_file ⟨[], fun _ => true⟩ "a.txt" "hi").1 =
      some ()) ∧
    ((runOps ((FileProcessor.new "base").write_file ⟨[], fun _ => true⟩ "a.txt" "hi").2.2
        ((FileProcessor.new "base").write_file ⟨[], fun _ => true⟩ "a.txt" "hi").2.1
        [Op.read "a.txt"]).1.read_file
      (runOps ((FileProcessor.new "base").write_file ⟨[], fun _ => true⟩ "a.txt" "hi").2.2
        ((FileProcessor.new "base").write_file ⟨[], fun _ => true⟩ "a.txt" "hi").2.1
        [Op.read "a.txt"]).2.1 "a.txt").1 = some "hi" :=
  ⟨by decide,
    claim_C4 (FileProcessor.new "base") ⟨[], fun _ => true⟩ "a.txt" "hi"
      [Op.read "a.txt"] (by decide)
      (fun f' c' hm => by simp at hm)⟩

/-- C5: greet is the pure function producing exactly the greeting text with
the name and the decimal age substituted; on the sample record named John
aged 30 it is exactly the sample text. -/
theorem claim_C5 :
    (∀ (n : String) (a : Nat) (e : Option String),
      Person.greet ⟨n, a, e⟩ =
        "Hello, I\x27m " ++ n ++ " and I\x27m " ++ toString a ++ " years old") ∧
    (Person.new "John" 30).greet = "Hello, I\x27m John and I\x27m 30 years old" :=
  ⟨fun _ _ _ => rfl, by decide⟩

/-- C6: is_adult holds exactly when the age is at least 18; at the boundary,
age 18 is an adult and age 17 is not. -/
theorem claim_C6 :
    (∀ p : Person, p.is_adult = true ↔ 18 ≤ p.age) ∧
    (∀ n, (Person.new n 18).is_adult = true) ∧
    (∀ n, (Person.new n 17).is_adult = false) :=
  ⟨fun p => by simp [Person.is_adult], fun _ => rfl, fun _ => rfl⟩

theorem claim_C6_witness :
    (Person.new "A" 18).is_adult = true ∧ 18 ≤ (Person.new "A" 18).age :=
  ⟨(claim_C6.1 (Person.new "A" 18)).mpr (by decide), by decide⟩

/-- C7: with_email sets the email field to the given text and leaves the
name and age fields untouched; no condition is placed on the email text. -/
theorem claim_C7 : ∀ (p : Person) (e : String),
    (p.with_email e).email = some e ∧
    (p.with_email e).name = p.name ∧
    (p.with_email e).age = p.age :=
  fun _ _ => ⟨rfl, rfl, rfl⟩

/-- C8 (amended): the printed stats rendering iterates a HashMap, so its key
order is some unspecified permutation of the three stats keys; every such
order contains exactly the keys base_path, processed_files_count and files.
The original sorted-order claim is refuted in claim_C8_counterexample. -/
theorem claim_C8 (l : List (String × JValue)) (h : l.Perm mainStats) :
    (l.map Prod.fst).Perm ["base_path", "processed_files_count", "files"] := by
  simpa [mainStats, FileProcessor.get_stats, FileProcessor.new] using h.map Prod.fst

theorem claim_C8_witness :
    mainStats.reverse.Perm mainStats ∧
    (mainStats.reverse.map Prod.fst).Perm
      ["base_path", "processed_files_count", "files"] :=
  ⟨mainStats.reverse_perm, claim_C8 mainStats.reverse mainStats.reverse_perm⟩

/-- C8 counterexample: the insertion order itself is a possible HashMap
iteration order (a permutation of the stats entries), yet its key sequence
base_path, processed_files_count, files is not sorted, since
processed_files_count comes after files in the string order. So the printed
keys are not guaranteed to appear in sorted key order. -/
theorem claim_C8_counterexample :
    mainStats.Perm mainStats ∧
    ¬ List.Pairwise (fun a b : String => keyLe a b = true) (mainStats.map Prod.fst) :=
  ⟨List.Perm.refl _, by decide⟩

/-- C9: the greeting ignores the email field: greeting a record after
with_email gives the same text as greeting the original record. -/
theorem claim_C9 : ∀ (p : Person) (e : String),
    (p.with_email e).greet = p.greet :=
  fun _ _ => rfl

/-- C10: the kept arguments are not trimmed: trimming only decides blankness,
and each kept element is the character-wise uppercase of the original, with
every whitespace character (which uppercasing fixes) and the length kept;
the leading and trailing blanks of a kept element survive, as in the
concrete example. -/
theorem claim_C10 :
    (process_arguments ["prog", " hi "] = [" HI "]) ∧
    (∀ args, process_arguments args =
      ((args.drop 1).filter (fun a => !(blankArg a))).map rustToUppercase) ∧
    (∀ c : Char, c.isWhitespace = true → c.toUpper = c) ∧
    (∀ s : String, (rustToUppercase s).length = s.length) := by
  refine ⟨by decide, fun _ => rfl, ?_, ?_⟩
  · intro c h
    have h' : c = ' ' ∨ c = '\t' ∨ c = '\r' ∨ c = '\n' := by
      simpa [Char.isWhitespace, or_assoc] using h
    rcases h' with rfl | rfl | rfl | rfl <;> decide
  · intro s
    exact List.length_map s.data Char.toUpper

theorem claim_C10_witness :
    (' ').isWhitespace = true ∧ (' ').toUpper = ' ' :=
  ⟨by decide, claim_C10.2.2.1 ' ' (by decide)⟩
